import Mathlib

/-
  Verification of the pairs-trading backtest engine (src/backtesting.py)
  and the Kalman-filter hedge-ratio estimator (src/kalman_filter.py).

  The embedding translates the Python sources into executable Lean
  definitions over exact rational arithmetic: the backtest loop body
  becomes a state-transition function on an explicit engine state, and
  fallible operations (unbound local reads, singular-matrix inversion)
  return Except values.
-/

namespace Trading

/-- One row of the input: the signal looked up for this timestamp
(`none` models a timestamp missing from the signal series, which the code
treats as signal 0), and the two prices `row[dep_asset]`, `row[ind_asset]`. -/
structure Step where
  sig : Option Int
  depPrice : ℚ
  indPrice : ℚ
deriving DecidableEq

/-- An entry of `active_trades`: the dict built at trade entry
(src/backtesting.py lines 129-135). -/
structure OpenTrade where
  entry_time : ℕ
  dep_entry : ℚ
  ind_entry : ℚ
  entry_net : ℚ
  direction : Int
deriving DecidableEq

/-- An entry of `trade_log`: the trade dict after the exit fields are
added (src/backtesting.py lines 105-109). -/
structure ClosedTrade where
  entry_time : ℕ
  exit_time : ℕ
  dep_entry : ℚ
  dep_exit : ℚ
  ind_entry : ℚ
  ind_exit : ℚ
  entry_net : ℚ
  direction : Int
  profit : ℚ
deriving DecidableEq

/-- The mutable state carried across loop iterations of `run_backtest`.
`entry_vars` models the persistence of the Python locals `entry_net` and
`direction` across iterations: they are first assigned inside the entry
branch and, like every Python local, retain their value in later
iterations. -/
structure BState where
  capital : ℚ
  portfolio_values : List ℚ
  trade_log : List ClosedTrade
  active_trades : List OpenTrade
  prev_signal : Int
  entry_vars : Option (ℚ × Int)
deriving DecidableEq

/-- Message for the UnboundLocalError raised when the entry branch reads
`entry_net` before any assignment. -/
def unboundMsg : String := "UnboundLocalError: local variable entry_net referenced before assignment"

/-- Net entry cash outflow of the entry branch (lines 114-125):
long (+1): `cost_buy - proceeds_short` with the dependent leg bought at
`(1+commission)` and the independent leg shorted at `(1-commission)`;
short (-1): legs swapped. -/
def entryNet (direction : Int) (dep_price ind_price n_shares commission : ℚ) : ℚ :=
  if direction = 1 then
    dep_price * n_shares * (1 + commission) - ind_price * n_shares * (1 - commission)
  else
    ind_price * n_shares * (1 + commission) - dep_price * n_shares * (1 - commission)

/-- Net exit cash inflow of the exit branch (lines 76-99):
long (+1): `proceeds_sale - cost_cover`; short (-1): legs swapped. -/
def exitNet (direction : Int) (dep_exit ind_exit n_shares commission : ℚ) : ℚ :=
  if direction = 1 then
    dep_exit * n_shares * (1 - commission) - ind_exit * n_shares * (1 + commission)
  else
    ind_exit * n_shares * (1 - commission) - dep_exit * n_shares * (1 + commission)

/-- Closing a single trade (lines 102-109): record exit time and prices and
set `profit = exit_net - entry_net`. -/
def closeTrade (n_shares commission : ℚ) (t : ℕ) (dep_price ind_price : ℚ)
    (tr : OpenTrade) : ClosedTrade :=
  { entry_time := tr.entry_time
    exit_time := t
    dep_entry := tr.dep_entry
    dep_exit := dep_price
    ind_entry := tr.ind_entry
    ind_exit := ind_price
    entry_net := tr.entry_net
    direction := tr.direction
    profit := exitNet tr.direction dep_price ind_price n_shares commission - tr.entry_net }

/-- Unrealized P&L of one open trade at the current prices (lines 141-145). -/
def pnl (n_shares : ℚ) (dep_price ind_price : ℚ) (tr : OpenTrade) : ℚ :=
  if tr.direction = 1 then
    (dep_price - tr.dep_entry) * n_shares + (tr.ind_entry - ind_price) * n_shares
  else
    (tr.dep_entry - dep_price) * n_shares + (ind_price - tr.ind_entry) * n_shares

/-- Trade-exit section of the loop body (lines 68-110): when the signal
goes from nonzero to 0 and trades are open, close them all, add each
per-trade `exit_net` to capital, append the closed trades to the log, and
clear `active_trades`. -/
def exitPhase (n_shares commission : ℚ) (t : ℕ) (dep_price ind_price : ℚ)
    (current_signal : Int) (st : BState) : BState :=
  if st.prev_signal ≠ 0 ∧ current_signal = 0 ∧ st.active_trades ≠ [] then
    { st with
      capital := st.capital +
        (st.active_trades.map fun tr =>
          exitNet tr.direction dep_price ind_price n_shares commission).sum
      trade_log := st.trade_log ++
        st.active_trades.map (closeTrade n_shares commission t dep_price ind_price)
      active_trades := [] }
  else st

/-- Values of the Python locals `entry_net` and `direction` after the
`current_signal == 1` / `elif current_signal == -1` assignments of the
entry branch (lines 114-125): for any other signal value neither branch
runs and the values from a previous iteration persist. -/
def entryVarsAfter (n_shares commission : ℚ) (dep_price ind_price : ℚ)
    (current_signal : Int) (old : Option (ℚ × Int)) : Option (ℚ × Int) :=
  if current_signal = 1 then some (entryNet 1 dep_price ind_price n_shares commission, 1)
  else if current_signal = -1 then
    some (entryNet (-1) dep_price ind_price n_shares commission, -1)
  else old

/-- Trade-entry section of the loop body (lines 113-135): when the signal
goes from 0 to nonzero, read the locals `entry_net`/`direction` (an
UnboundLocalError if they were never assigned), and open the batch only if
`capital >= entry_net and capital > margin_cap` (line 127), deducting
`entry_net` and appending the new trade dict. -/
def entryPhase (n_shares commission margin_cap : ℚ) (t : ℕ) (dep_price ind_price : ℚ)
    (current_signal : Int) (st : BState) : Except String BState :=
  if st.prev_signal = 0 ∧ current_signal ≠ 0 then
    match entryVarsAfter n_shares commission dep_price ind_price current_signal st.entry_vars with
    | none => Except.error unboundMsg
    | some (entry_net, direction) =>
      if st.capital ≥ entry_net ∧ st.capital > margin_cap then
        Except.ok { st with
          capital := st.capital - entry_net
          active_trades := st.active_trades ++
            [{ entry_time := t, dep_entry := dep_price, ind_entry := ind_price,
               entry_net := entry_net, direction := direction }]
          entry_vars := some (entry_net, direction) }
      else Except.ok { st with entry_vars := some (entry_net, direction) }
  else Except.ok st

/-- Portfolio-update section of the loop body (lines 137-148): append
`capital + unrealized_pnl` and set `prev_signal := current_signal`. -/
def markPhase (n_shares : ℚ) (dep_price ind_price : ℚ) (current_signal : Int)
    (st : BState) : BState :=
  { st with
    portfolio_values := st.portfolio_values ++
      [st.capital + (st.active_trades.map (pnl n_shares dep_price ind_price)).sum]
    prev_signal := current_signal }

/-- One full iteration of the `for timestamp, row in data.iterrows()` loop:
exit section, then entry section, then portfolio update. -/
def backtestStep (n_shares commission margin_cap : ℚ) (st : BState) (t : ℕ)
    (stp : Step) : Except String BState :=
  let current_signal := (stp.sig).getD 0
  match entryPhase n_shares commission margin_cap t stp.depPrice stp.indPrice current_signal
      (exitPhase n_shares commission t stp.depPrice stp.indPrice current_signal st) with
  | Except.error e => Except.error e
  | Except.ok st3 =>
      Except.ok (markPhase n_shares stp.depPrice stp.indPrice current_signal st3)

/-- The whole simulation loop, threading the state through the rows. -/
def runSteps (n_shares commission margin_cap : ℚ) :
    BState → ℕ → List Step → Except String BState
  | st, _, [] => Except.ok st
  | st, t, stp :: rest =>
    match backtestStep n_shares commission margin_cap st t stp with
    | Except.error e => Except.error e
    | Except.ok st2 => runSteps n_shares commission margin_cap st2 (t + 1) rest

/-- State at line 51-61: capital = initial_capital, empty logs, previous
signal 0, the locals `entry_net`/`direction` not yet assigned. -/
def initialState (initial_capital : ℚ) : BState :=
  { capital := initial_capital
    portfolio_values := []
    trade_log := []
    active_trades := []
    prev_signal := 0
    entry_vars := none }

/-- What `run_backtest` returns (lines 150-165), together with the final
internal engine state (`capital`, `active_trades`), which the return value
of the Python function no longer exposes but the claims quantify over. -/
structure BacktestResult where
  portfolio_values : List ℚ
  initial_capital : ℚ
  final_capital : ℚ
  total_trades : ℕ
  win_rate : ℚ
  trade_log : List ClosedTrade
  capital : ℚ
  active_trades : List OpenTrade
deriving DecidableEq

/-- `run_backtest` (src/backtesting.py lines 4-165): run the loop from the
initial state, then compute `final_capital` (last portfolio value, or the
cash balance if no rows), `total_trades = len(trade_log)` and
`win_rate = (#profit>0)/total_trades*100, or 0`. -/
def run_backtest (steps : List Step) (initial_capital n_shares commission margin_cap : ℚ) :
    Except String BacktestResult :=
  match runSteps n_shares commission margin_cap (initialState initial_capital) 0 steps with
  | Except.error e => Except.error e
  | Except.ok st =>
    let total_trades := st.trade_log.length
    let wins := (st.trade_log.filter fun tr => 0 < tr.profit).length
    let win_rate : ℚ := if 0 < total_trades then (wins : ℚ) / (total_trades : ℚ) * 100 else 0
    Except.ok
      { portfolio_values := st.portfolio_values
        initial_capital := initial_capital
        final_capital := (st.portfolio_values.getLast?).getD st.capital
        total_trades := total_trades
        win_rate := win_rate
        trade_log := st.trade_log
        capital := st.capital
        active_trades := st.active_trades }

/-- Decides whether an Except value is a success. -/
def exOk {α : Type} : Except String α → Bool
  | Except.ok _ => true
  | Except.error _ => false

/-- The instance attributes of `KalmanFilterReg` (src/kalman_filter.py
lines 4-10): state vector `x = [x0, x1]` (intercept, slope), error
covariance `P` as four entries, process noise `Q = q*I`, observation noise
`R = [[r]]`. The transition matrix `A` is the identity and never changes. -/
structure KalmanFilterReg where
  x0 : ℚ
  x1 : ℚ
  p00 : ℚ
  p01 : ℚ
  p10 : ℚ
  p11 : ℚ
  q : ℚ
  r : ℚ
deriving DecidableEq

/-- `__init__` (lines 4-10): x = [1,1], A = I, Q = 0.001*I, R = [[10]],
P = 1000*I. -/
def KalmanFilterReg.initial : KalmanFilterReg :=
  { x0 := 1, x1 := 1, p00 := 1000, p01 := 0, p10 := 0, p11 := 1000
    q := 1/1000, r := 10 }

/-- `predict` (lines 12-14): P <- A P Aᵀ + Q, with A = I this adds q on the
diagonal; the state x is unchanged. -/
def KalmanFilterReg.predict (s : KalmanFilterReg) : KalmanFilterReg :=
  { s with p00 := s.p00 + s.q, p11 := s.p11 + s.q }

/-- The 1x1 innovation covariance S = C P Cᵀ + R of `update` (line 19),
with observation row C = [1, x]. -/
def KalmanFilterReg.innovationCov (s : KalmanFilterReg) (x : ℚ) : ℚ :=
  s.p00 + x * s.p10 + x * s.p01 + x * x * s.p11 + s.r

/-- Message of the numpy LinAlgError raised by `np.linalg.inv` on a
singular matrix. -/
def singularMsg : String := "LinAlgError: Singular matrix"

/-- `update` (lines 16-22): C = [1, x]; S = C P Cᵀ + R; K = P Cᵀ S⁻¹
(inverting the 1x1 matrix S raises LinAlgError when S = 0);
P <- (I - K C) P; x <- x + K (y - C x). -/
def KalmanFilterReg.update (s : KalmanFilterReg) (x y : ℚ) :
    Except String KalmanFilterReg :=
  let S := s.innovationCov x
  if S = 0 then Except.error singularMsg
  else
    let k0 := (s.p00 + x * s.p01) / S
    let k1 := (s.p10 + x * s.p11) / S
    let innov := y - (s.x0 + x * s.x1)
    Except.ok
      { s with
        x0 := s.x0 + k0 * innov
        x1 := s.x1 + k1 * innov
        p00 := (1 - k0) * s.p00 - k0 * x * s.p10
        p01 := (1 - k0) * s.p01 - k0 * x * s.p11
        p10 := (1 - k1 * x) * s.p10 - k1 * s.p00
        p11 := (1 - k1 * x) * s.p11 - k1 * s.p01 }

/-- The body of the `for x, y in zip(x_series, y_series)` loop of
`run_kalman_filter` (lines 29-33): per paired observation call `predict`
then `update`, append the post-update slope `x[1]` to `hedge_ratios` and
`x[0] + x[1]*x` to `kalman_preds`. An exception aborts the whole run. -/
def KalmanFilterReg.runAux (s : KalmanFilterReg) :
    List (ℚ × ℚ) → Except String (KalmanFilterReg × List ℚ × List ℚ)
  | [] => Except.ok (s, [], [])
  | (x, y) :: rest =>
    match (s.predict).update x y with
    | Except.error e => Except.error e
    | Except.ok s2 =>
      match KalmanFilterReg.runAux s2 rest with
      | Except.error e => Except.error e
      | Except.ok (sf, hrs, preds) =>
        Except.ok (sf, s2.x1 :: hrs, (s2.x0 + s2.x1 * x) :: preds)

/-- `run_kalman_filter` (lines 24-35): zip the two series (numpy `zip`
truncates to the shorter), run the loop, return (hedge_ratios,
kalman_preds). -/
def KalmanFilterReg.run_kalman_filter (s : KalmanFilterReg) (x_series y_series : List ℚ) :
    Except String (List ℚ × List ℚ) :=
  match KalmanFilterReg.runAux s (x_series.zip y_series) with
  | Except.error e => Except.error e
  | Except.ok (_, hrs, preds) => Except.ok (hrs, preds)

/-- Modelled from the spec (section 4.1, `run`): the relation holding
between an initial filter state, a list of paired observations, a final
state and the two output lists exactly when each paired observation is
processed by one `predict` followed by one `update`, in that order, and
the recorded outputs are the post-update slope and fitted value. Used to
state the refinement claim C7. -/
inductive KalmanTraceSpec :
    KalmanFilterReg → List (ℚ × ℚ) → KalmanFilterReg → List ℚ → List ℚ → Prop
  | nil (s : KalmanFilterReg) : KalmanTraceSpec s [] s [] []
  | cons (s s2 sf : KalmanFilterReg) (x y : ℚ) (rest : List (ℚ × ℚ))
      (hrs preds : List ℚ) :
      (s.predict).update x y = Except.ok s2 →
      KalmanTraceSpec s2 rest sf hrs preds →
      KalmanTraceSpec s ((x, y) :: rest) sf (s2.x1 :: hrs)
        ((s2.x0 + s2.x1 * x) :: preds)

/-- The concrete scenario of spec section 8: price_dep=[100,105,110,95],
price_ind=[50,51,52,48], signal=[0,1,1,0]. -/
def scenarioSteps : List Step :=
  [⟨some 0, 100, 50⟩, ⟨some 1, 105, 51⟩, ⟨some 1, 110, 52⟩, ⟨some 0, 95, 48⟩]

/-! ### Helper lemmas about the three sections of the loop body -/

theorem exitPhase_pos (n c : ℚ) (t : ℕ) (dep ind : ℚ) (cur : Int) (st : BState)
    (h : st.prev_signal ≠ 0 ∧ cur = 0 ∧ st.active_trades ≠ []) :
    exitPhase n c t dep ind cur st =
      { st with
        capital := st.capital +
          (st.active_trades.map fun tr => exitNet tr.direction dep ind n c).sum
        trade_log := st.trade_log ++ st.active_trades.map (closeTrade n c t dep ind)
        active_trades := [] } := by
  unfold exitPhase
  rw [if_pos h]

theorem exitPhase_neg (n c : ℚ) (t : ℕ) (dep ind : ℚ) (cur : Int) (st : BState)
    (h : ¬(st.prev_signal ≠ 0 ∧ cur = 0 ∧ st.active_trades ≠ [])) :
    exitPhase n c t dep ind cur st = st := by
  unfold exitPhase
  rw [if_neg h]

theorem exitPhase_cases (n c : ℚ) (t : ℕ) (dep ind : ℚ) (cur : Int) (st : BState) :
    exitPhase n c t dep ind cur st = st ∨
      (st.prev_signal ≠ 0 ∧ cur = 0 ∧ st.active_trades ≠ [] ∧
        exitPhase n c t dep ind cur st =
          { st with
            capital := st.capital +
              (st.active_trades.map fun tr => exitNet tr.direction dep ind n c).sum
            trade_log := st.trade_log ++ st.active_trades.map (closeTrade n c t dep ind)
            active_trades := [] }) := by
  by_cases h : st.prev_signal ≠ 0 ∧ cur = 0 ∧ st.active_trades ≠ []
  · exact Or.inr ⟨h.1, h.2.1, h.2.2, exitPhase_pos n c t dep ind cur st h⟩
  · exact Or.inl (exitPhase_neg n c t dep ind cur st h)

theorem entryPhase_not (n c m : ℚ) (t : ℕ) (dep ind : ℚ) (cur : Int) (st : BState)
    (h : ¬(st.prev_signal = 0 ∧ cur ≠ 0)) :
    entryPhase n c m t dep ind cur st = Except.ok st := by
  unfold entryPhase
  rw [if_neg h]

/-- Everything a successful entry section can do: the log, portfolio list
and previous signal are untouched, and either the trade collection and
capital are unchanged, or exactly one trade was appended, with the margin
check and the exact deduction recorded. -/
theorem entryPhase_spec (n c m : ℚ) (t : ℕ) (dep ind : ℚ) (cur : Int) (st st2 : BState)
    (hok : entryPhase n c m t dep ind cur st = Except.ok st2) :
    st2.trade_log = st.trade_log ∧ st2.portfolio_values = st.portfolio_values ∧
    st2.prev_signal = st.prev_signal ∧
    ((st2.active_trades = st.active_trades ∧ st2.capital = st.capital) ∨
      ∃ e d, cur ≠ 0 ∧ st.prev_signal = 0 ∧
        st2.active_trades = st.active_trades ++
          [{ entry_time := t, dep_entry := dep, ind_entry := ind,
             entry_net := e, direction := d }] ∧
        st2.capital = st.capital - e ∧ e ≤ st.capital ∧ m < st.capital ∧
        (cur = 1 → e = entryNet 1 dep ind n c ∧ d = 1) ∧
        (cur = -1 → e = entryNet (-1) dep ind n c ∧ d = -1)) := by
  unfold entryPhase at hok
  by_cases h1 : st.prev_signal = 0 ∧ cur ≠ 0
  · rw [if_pos h1] at hok
    rcases hEv : entryVarsAfter n c dep ind cur st.entry_vars with _ | ⟨e, d⟩
    · rw [hEv] at hok
      cases hok
    · rw [hEv] at hok
      dsimp only at hok
      by_cases h2 : st.capital ≥ e ∧ st.capital > m
      · rw [if_pos h2] at hok
        cases hok
        refine ⟨rfl, rfl, rfl, Or.inr ⟨e, d, h1.2, h1.1, rfl, rfl, h2.1, h2.2, ?_, ?_⟩⟩
        · intro hc
          rw [hc] at hEv
          unfold entryVarsAfter at hEv
          simp at hEv
          exact ⟨hEv.1.symm, hEv.2.symm⟩
        · intro hc
          rw [hc] at hEv
          unfold entryVarsAfter at hEv
          simp at hEv
          exact ⟨hEv.1.symm, hEv.2.symm⟩
      · rw [if_neg h2] at hok
        cases hok
        exact ⟨rfl, rfl, rfl, Or.inl ⟨rfl, rfl⟩⟩
  · rw [if_neg h1] at hok
    cases hok
    exact ⟨rfl, rfl, rfl, Or.inl ⟨rfl, rfl⟩⟩

/-- A successful step factors as exit section, entry section, portfolio
update. -/
theorem backtestStep_ok_elim (n c m : ℚ) (st : BState) (t : ℕ) (stp : Step) (st2 : BState)
    (hok : backtestStep n c m st t stp = Except.ok st2) :
    ∃ st3, entryPhase n c m t stp.depPrice stp.indPrice ((stp.sig).getD 0)
        (exitPhase n c t stp.depPrice stp.indPrice ((stp.sig).getD 0) st) = Except.ok st3 ∧
      st2 = markPhase n stp.depPrice stp.indPrice ((stp.sig).getD 0) st3 := by
  simp only [backtestStep] at hok
  cases hep : entryPhase n c m t stp.depPrice stp.indPrice ((stp.sig).getD 0)
      (exitPhase n c t stp.depPrice stp.indPrice ((stp.sig).getD 0) st) with
  | error e =>
    rw [hep] at hok
    simp at hok
  | ok st3 =>
    rw [hep] at hok
    cases hok
    exact ⟨st3, rfl, rfl⟩

/-! ### Claim C1 -/

/-- C1 (corrected): whenever a step of `run_backtest` opens a trade, the
pre-deduction capital is at least (not strictly greater than) the computed
`entry_net`, the pre-deduction capital strictly exceeds the margin floor,
and opening decreases capital by exactly `entry_net`. The strict inequality of the original claim
 against `entry_net` and its bound on the post-deduction
capital do not hold (see the counterexample). -/
theorem C1_open_checks (n c m : ℚ) (st : BState) (t : ℕ) (stp : Step) (st2 : BState)
    (hok : backtestStep n c m st t stp = Except.ok st2)
    (hopen : st.active_trades.length < st2.active_trades.length) :
    ∃ tr : OpenTrade, st2.active_trades = st.active_trades ++ [tr] ∧
      tr.entry_net ≤ st.capital ∧ m < st.capital ∧
      st2.capital = st.capital - tr.entry_net := by
  obtain ⟨st3, hep, rfl⟩ := backtestStep_ok_elim n c m st t stp st2 hok
  obtain ⟨hlog, hpv, hps, hcase⟩ := entryPhase_spec _ _ _ _ _ _ _ _ _ hep
  simp only [markPhase] at hopen ⊢
  rcases exitPhase_cases n c t stp.depPrice stp.indPrice ((stp.sig).getD 0) st with
      hex | ⟨hprev, hcur, hne, hex⟩
  · rw [hex] at hcase
    rcases hcase with ⟨ha, hc⟩ | ⟨e, d, _, _, ha, hc, hle, hm, _, _⟩
    · rw [ha] at hopen
      exact absurd hopen (lt_irrefl _)
    · exact ⟨_, ha, hle, hm, hc⟩
  · rw [hex] at hcase
    rcases hcase with ⟨ha, hc⟩ | ⟨e, d, hcur2, _, ha, hc, hle, hm, _, _⟩
    · rw [ha] at hopen
      simp at hopen
    · exact absurd hcur hcur2

def exStp1 : Step := ⟨some 1, 100, 50⟩

def exSt1 : BState := ⟨500, [500], [], [⟨0, 100, 50, 500, 1⟩], 1, some (500, 1)⟩

/-- Witness for C1_open_checks: a concrete step that opens a trade, with
both hypotheses discharged by evaluation. -/
theorem C1_open_checks_witness :
    ∃ tr : OpenTrade, exSt1.active_trades = (initialState 1000).active_trades ++ [tr] ∧
      tr.entry_net ≤ (initialState 1000).capital ∧ (0 : ℚ) < (initialState 1000).capital ∧
      exSt1.capital = (initialState 1000).capital - tr.entry_net := by
  have h := C1_open_checks 10 0 0 (initialState 1000) 0 exStp1 exSt1
    (by norm_num [backtestStep, entryPhase, exitPhase, markPhase, entryVarsAfter,
      initialState, entryNet, pnl, exStp1, exSt1])
    (by decide)
  exact h

/-- C1 counterexample: with margin floor 0, prices (100, 50), n_shares 10,
commission 0 and initial capital 500 the entry cost is exactly 500; the
trade is nevertheless opened (so pre-deduction capital does not strictly
exceed the entry cost), and capital after the deduction is 0, which is not
strictly above the margin floor 0. -/
theorem C1_counterexample :
    run_backtest [⟨some 1, 100, 50⟩] 500 10 0 0 = Except.ok
      { portfolio_values := [0], initial_capital := 500, final_capital := 0,
        total_trades := 0, win_rate := 0, trade_log := [], capital := 0,
        active_trades := [⟨0, 100, 50, 500, 1⟩] } ∧
    ¬ (500 : ℚ) < 500 ∧ ¬ (0 : ℚ) < 0 := by
  refine ⟨?_, by norm_num, by norm_num⟩
  norm_num [run_backtest, runSteps, backtestStep, entryPhase, exitPhase, markPhase,
    entryVarsAfter, initialState, entryNet, exitNet, closeTrade, pnl]

/-! ### Claim C2 -/

/-- C2 (corrected): trades are closed exactly when the signal reverts to 0
(previous signal nonzero, current signal 0, collection non-empty): then
every trade in the collection is closed with commission on both legs,
appended to the log, its `exit_net` added to capital, and the collection
cleared. When the current signal is nonzero — in particular when it flips
to the opposite sign — no trade is closed: the log is unchanged and the
collection is not cleared. -/
theorem C2_close_on_zero (n c m : ℚ) (st : BState) (t : ℕ) (stp : Step) :
    (st.prev_signal ≠ 0 → (stp.sig).getD 0 = 0 → st.active_trades ≠ [] →
      ∃ st2, backtestStep n c m st t stp = Except.ok st2 ∧
        st2.active_trades = [] ∧
        st2.trade_log = st.trade_log ++
          st.active_trades.map (closeTrade n c t stp.depPrice stp.indPrice) ∧
        st2.capital = st.capital +
          (st.active_trades.map fun tr =>
            exitNet tr.direction stp.depPrice stp.indPrice n c).sum) ∧
    ((stp.sig).getD 0 ≠ 0 → ∀ st2, backtestStep n c m st t stp = Except.ok st2 →
      st2.trade_log = st.trade_log ∧
      st.active_trades.length ≤ st2.active_trades.length) := by
  constructor
  · intro h1 h2 h3
    have hexit := exitPhase_pos n c t stp.depPrice stp.indPrice ((stp.sig).getD 0) st ⟨h1, h2, h3⟩
    have hbs : backtestStep n c m st t stp = Except.ok
        (markPhase n stp.depPrice stp.indPrice ((stp.sig).getD 0)
          (exitPhase n c t stp.depPrice stp.indPrice ((stp.sig).getD 0) st)) := by
      simp only [backtestStep]
      rw [entryPhase_not n c m t stp.depPrice stp.indPrice ((stp.sig).getD 0) _
        (fun hcon => hcon.2 h2)]
    refine ⟨_, hbs, ?_, ?_, ?_⟩
    · simp [markPhase, hexit]
    · simp [markPhase, hexit]
    · simp [markPhase, hexit]
  · intro h2 st2 hok
    obtain ⟨st3, hep, rfl⟩ := backtestStep_ok_elim n c m st t stp st2 hok
    have hexit : exitPhase n c t stp.depPrice stp.indPrice ((stp.sig).getD 0) st = st :=
      exitPhase_neg n c t stp.depPrice stp.indPrice ((stp.sig).getD 0) st
        (fun hcon => h2 hcon.2.1)
    rw [hexit] at hep
    obtain ⟨hlog, _, _, hcase⟩ := entryPhase_spec _ _ _ _ _ _ _ _ _ hep
    constructor
    · simp [markPhase, hlog]
    · rcases hcase with ⟨ha, _⟩ | ⟨e, d, _, _, ha, _⟩ <;> simp [markPhase, ha]

def exSt2 : BState := ⟨1000, [], [], [⟨0, 100, 50, 500, 1⟩], 1, some (500, 1)⟩

def exStp2 : Step := ⟨some 0, 110, 55⟩

/-- Witness for C2_close_on_zero: a concrete state with one open trade and
a signal that reverts to 0, all hypotheses discharged by evaluation. -/
theorem C2_close_on_zero_witness :
    ∃ st2, backtestStep 10 0 0 exSt2 3 exStp2 = Except.ok st2 ∧
      st2.active_trades = [] ∧
      st2.trade_log = exSt2.trade_log ++
        exSt2.active_trades.map (closeTrade 10 0 3 exStp2.depPrice exStp2.indPrice) ∧
      st2.capital = exSt2.capital +
        (exSt2.active_trades.map fun tr =>
          exitNet tr.direction exStp2.depPrice exStp2.indPrice 10 0).sum :=
  (C2_close_on_zero 10 0 0 exSt2 3 exStp2).1 (by decide) (by decide) (by decide)

/-- C2 counterexample: the signal flips from +1 straight to -1; contrary to
the claim, `run_backtest` closes nothing at the flip — the trade log stays
empty and the trade opened at step 0 is still in the open collection at the
end of the run. -/
theorem C2_counterexample :
    run_backtest [⟨some 1, 100, 50⟩, ⟨some (-1), 110, 55⟩] 1000000 10 0 250000 = Except.ok
      { portfolio_values := [999500, 999550], initial_capital := 1000000,
        final_capital := 999550, total_trades := 0, win_rate := 0, trade_log := [],
        capital := 999500, active_trades := [⟨0, 100, 50, 500, 1⟩] } := by
  norm_num [run_backtest, runSteps, backtestStep, entryPhase, exitPhase, markPhase,
    entryVarsAfter, initialState, entryNet, exitNet, closeTrade, pnl]

/-! ### Generic lemmas about the whole simulation loop -/

theorem sumMapSubEq {α : Type} (l : List α) (f g : α → ℚ) :
    (l.map fun a => f a - g a).sum = (l.map f).sum - (l.map g).sum := by
  induction l with
  | nil => simp
  | cons a l ih =>
    simp only [List.map_cons, List.sum_cons, ih]
    ring

theorem getLastAppendSingleton {α : Type} (l : List α) (a : α) :
    (l ++ [a]).getLast? = some a := by
  induction l with
  | nil => rfl
  | cons b l ih =>
    cases l with
    | nil => rfl
    | cons c l => simpa using ih

/-- The sum of the profits of a batch of just-closed trades. -/
theorem closedProfitSum (n c : ℚ) (t : ℕ) (dep ind : ℚ) (l : List OpenTrade) :
    ((l.map (closeTrade n c t dep ind)).map fun tr => tr.profit).sum =
      (l.map fun tr => exitNet tr.direction dep ind n c).sum -
        (l.map fun tr => tr.entry_net).sum := by
  induction l with
  | nil => simp
  | cons a l ih =>
    simp only [List.map_cons, List.sum_cons, ih, closeTrade]
    ring

/-- Any property preserved by every step along the run is carried from the
initial to the final state. -/
theorem runSteps_inv (n c m : ℚ) (P : BState → Prop) (steps : List Step) :
    ∀ st t st2,
      (∀ stp ∈ steps, ∀ s u s2, backtestStep n c m s u stp = Except.ok s2 → P s → P s2) →
      runSteps n c m st t steps = Except.ok st2 → P st → P st2 := by
  induction steps with
  | nil =>
    intro st t st2 _ hrun hP
    cases hrun
    exact hP
  | cons stp rest ih =>
    intro st t st2 hstep hrun hP
    simp only [runSteps] at hrun
    cases hbs : backtestStep n c m st t stp with
    | error e =>
      rw [hbs] at hrun
      cases hrun
    | ok stMid =>
      rw [hbs] at hrun
      exact ih stMid (t + 1) st2 (fun s hs => hstep s (List.mem_cons_of_mem _ hs)) hrun
        (hstep stp (List.mem_cons_self _ _) st t stMid hbs hP)

theorem entryPhase_isOk (n c m : ℚ) (t : ℕ) (dep ind : ℚ) (cur : Int) (st : BState)
    (hcur : cur = 1 ∨ cur = -1 ∨ cur = 0) :
    ∃ st2, entryPhase n c m t dep ind cur st = Except.ok st2 := by
  unfold entryPhase
  by_cases h1 : st.prev_signal = 0 ∧ cur ≠ 0
  · rw [if_pos h1]
    rcases hcur with hc | hc | hc
    · have hEv : entryVarsAfter n c dep ind cur st.entry_vars =
          some (entryNet 1 dep ind n c, 1) := by
        unfold entryVarsAfter
        rw [hc]
        simp
      rw [hEv]
      dsimp only
      split
      · exact ⟨_, rfl⟩
      · exact ⟨_, rfl⟩
    · have hEv : entryVarsAfter n c dep ind cur st.entry_vars =
          some (entryNet (-1) dep ind n c, -1) := by
        unfold entryVarsAfter
        rw [hc]
        simp
      rw [hEv]
      dsimp only
      split
      · exact ⟨_, rfl⟩
      · exact ⟨_, rfl⟩
    · exact absurd hc h1.2
  · rw [if_neg h1]
    exact ⟨st, rfl⟩

theorem backtestStep_isOk (n c m : ℚ) (st : BState) (t : ℕ) (stp : Step)
    (hcur : (stp.sig).getD 0 = 1 ∨ (stp.sig).getD 0 = -1 ∨ (stp.sig).getD 0 = 0) :
    ∃ st2, backtestStep n c m st t stp = Except.ok st2 := by
  obtain ⟨st3, h⟩ := entryPhase_isOk n c m t stp.depPrice stp.indPrice ((stp.sig).getD 0)
    (exitPhase n c t stp.depPrice stp.indPrice ((stp.sig).getD 0) st) hcur
  refine ⟨markPhase n stp.depPrice stp.indPrice ((stp.sig).getD 0) st3, ?_⟩
  simp only [backtestStep]
  rw [h]

theorem runSteps_isOk (n c m : ℚ) (steps : List Step) :
    ∀ st t,
      (∀ stp ∈ steps,
        (stp.sig).getD 0 = 1 ∨ (stp.sig).getD 0 = -1 ∨ (stp.sig).getD 0 = 0) →
      ∃ st2, runSteps n c m st t steps = Except.ok st2 := by
  induction steps with
  | nil => exact fun st t _ => ⟨st, rfl⟩
  | cons stp rest ih =>
    intro st t hsig
    obtain ⟨stMid, h2⟩ := backtestStep_isOk n c m st t stp (hsig stp (List.mem_cons_self _ _))
    obtain ⟨st3, h3⟩ := ih stMid (t + 1) (fun s hs => hsig s (List.mem_cons_of_mem _ hs))
    refine ⟨st3, ?_⟩
    simp only [runSteps]
    rw [h2]
    exact h3

theorem step_portfolio_len (n c m : ℚ) (st : BState) (t : ℕ) (stp : Step) (st2 : BState)
    (hok : backtestStep n c m st t stp = Except.ok st2) :
    st2.portfolio_values.length = st.portfolio_values.length + 1 := by
  obtain ⟨st3, hep, rfl⟩ := backtestStep_ok_elim n c m st t stp st2 hok
  obtain ⟨_, hpv, _, _⟩ := entryPhase_spec _ _ _ _ _ _ _ _ _ hep
  rcases exitPhase_cases n c t stp.depPrice stp.indPrice ((stp.sig).getD 0) st with
      hex | ⟨_, _, _, hex⟩ <;> rw [hex] at hpv <;> simp [markPhase, hpv]

theorem runSteps_portfolio_len (n c m : ℚ) (steps : List Step) :
    ∀ st t st2, runSteps n c m st t steps = Except.ok st2 →
      st2.portfolio_values.length = st.portfolio_values.length + steps.length := by
  induction steps with
  | nil =>
    intro st t st2 hrun
    cases hrun
    simp
  | cons stp rest ih =>
    intro st t st2 hrun
    simp only [runSteps] at hrun
    cases hbs : backtestStep n c m st t stp with
    | error e =>
      rw [hbs] at hrun
      cases hrun
    | ok stMid =>
      rw [hbs] at hrun
      have h1 := step_portfolio_len n c m st t stp stMid hbs
      have h2 := ih stMid (t + 1) st2 hrun
      rw [h2, h1, List.length_cons]
      ring

/-- After any successful step, the last portfolio value equals the new
capital plus the unrealized P&L of the trades still open, at the prices of that step. -/
theorem step_last_portfolio (n c m : ℚ) (st : BState) (t : ℕ) (stp : Step) (st2 : BState)
    (hok : backtestStep n c m st t stp = Except.ok st2) :
    st2.portfolio_values.getLast? = some (st2.capital +
      (st2.active_trades.map (pnl n stp.depPrice stp.indPrice)).sum) := by
  obtain ⟨st3, _, rfl⟩ := backtestStep_ok_elim n c m st t stp st2 hok
  simp only [markPhase]
  exact getLastAppendSingleton _ _

theorem runSteps_last_portfolio (n c m : ℚ) (steps : List Step) :
    ∀ st t st2 stpL, runSteps n c m st t steps = Except.ok st2 →
      steps.getLast? = some stpL →
      st2.portfolio_values.getLast? = some (st2.capital +
        (st2.active_trades.map (pnl n stpL.depPrice stpL.indPrice)).sum) := by
  induction steps with
  | nil =>
    intro st t st2 stpL _ hgl
    cases hgl
  | cons stp rest ih =>
    intro st t st2 stpL hrun hgl
    simp only [runSteps] at hrun
    cases hbs : backtestStep n c m st t stp with
    | error e =>
      rw [hbs] at hrun
      cases hrun
    | ok stMid =>
      rw [hbs] at hrun
      cases rest with
      | nil =>
        simp only [runSteps, Except.ok.injEq] at hrun
        subst hrun
        obtain rfl : stp = stpL := by simpa using hgl
        exact step_last_portfolio n c m st t stp stMid hbs
      | cons b l =>
        exact ih stMid (t + 1) st2 stpL hrun (by rw [← List.getLast?_cons_cons]; exact hgl)

/-- Unpacks a successful `run_backtest` into the final loop state and the
definitions of the returned fields. -/
theorem run_backtest_ok_elim (steps : List Step) (init n c m : ℚ) (r : BacktestResult)
    (hok : run_backtest steps init n c m = Except.ok r) :
    ∃ st, runSteps n c m (initialState init) 0 steps = Except.ok st ∧
      r.portfolio_values = st.portfolio_values ∧
      r.initial_capital = init ∧
      r.final_capital = (st.portfolio_values.getLast?).getD st.capital ∧
      r.total_trades = st.trade_log.length ∧
      r.win_rate = (if 0 < st.trade_log.length then
        ((st.trade_log.filter fun tr => 0 < tr.profit).length : ℚ) /
          (st.trade_log.length : ℚ) * 100 else 0) ∧
      r.trade_log = st.trade_log ∧ r.capital = st.capital ∧
      r.active_trades = st.active_trades := by
  simp only [run_backtest] at hok
  cases hrs : runSteps n c m (initialState init) 0 steps with
  | error e =>
    rw [hrs] at hok
    cases hok
  | ok st =>
    rw [hrs] at hok
    cases hok
    exact ⟨st, rfl, rfl, rfl, rfl, rfl, rfl, rfl, rfl, rfl⟩

/-- The cash-accounting invariant of the loop: at every point, capital
plus the entry costs still locked in open trades equals the initial
capital plus the realized profits of the logged trades. -/
def capitalInvariant (init : ℚ) (st : BState) : Prop :=
  st.capital + (st.active_trades.map fun tr => tr.entry_net).sum =
    init + (st.trade_log.map fun tr => tr.profit).sum

theorem step_capital (n c m : ℚ) (st : BState) (t : ℕ) (stp : Step) (st2 : BState) (init : ℚ)
    (hok : backtestStep n c m st t stp = Except.ok st2)
    (hP : capitalInvariant init st) : capitalInvariant init st2 := by
  obtain ⟨st3, hep, rfl⟩ := backtestStep_ok_elim n c m st t stp st2 hok
  obtain ⟨hlog, _, _, hcase⟩ := entryPhase_spec _ _ _ _ _ _ _ _ _ hep
  unfold capitalInvariant at hP ⊢
  simp only [markPhase]
  rcases exitPhase_cases n c t stp.depPrice stp.indPrice ((stp.sig).getD 0) st with
      hex | ⟨_, hcur, _, hex⟩
  · rw [hex] at hlog hcase
    rcases hcase with ⟨ha, hc⟩ | ⟨e, d, _, _, ha, hc, _, _, _, _⟩
    · rw [hlog, ha, hc]
      exact hP
    · rw [hlog, ha, hc]
      simp only [List.map_append, List.sum_append, List.map_cons, List.sum_cons,
        List.map_nil, List.sum_nil]
      linarith [hP]
  · rw [hex] at hlog hcase
    rcases hcase with ⟨ha, hc⟩ | ⟨e, d, hcur2, _, _⟩
    · rw [hlog, ha, hc]
      simp only [List.map_append, List.sum_append, List.map_nil, List.sum_nil,
        List.map_map]
      have hclosed := closedProfitSum n c t stp.depPrice stp.indPrice st.active_trades
      simp only [List.map_map] at hclosed
      simp only [hclosed]
      linarith [hP]
    · exact absurd hcur hcur2

/-! ### Claim C10 -/

/-- C10 (confirmed): trades still open when the input ends are never
closed: the returned trade count is the length of the trade log (open
trades excluded), the portfolio series is aligned 1:1 with the input, the
cash balance still carries the deduction of the entry cost of every open trade
(capital + locked entry costs = initial capital + realized profits), the
last portfolio value adds the unrealized P&L of the open trades at the
last prices, and `final_capital` is that last portfolio value. -/
theorem C10_open_trades_at_end (steps : List Step) (init n c m : ℚ) (r : BacktestResult)
    (hok : run_backtest steps init n c m = Except.ok r) :
    r.total_trades = r.trade_log.length ∧
    r.portfolio_values.length = steps.length ∧
    r.capital + (r.active_trades.map fun tr => tr.entry_net).sum =
      init + (r.trade_log.map fun tr => tr.profit).sum ∧
    (∀ stpL, steps.getLast? = some stpL →
      r.portfolio_values.getLast? = some (r.capital +
        (r.active_trades.map (pnl n stpL.depPrice stpL.indPrice)).sum)) ∧
    r.final_capital = (r.portfolio_values.getLast?).getD r.capital := by
  obtain ⟨st, hrs, hpv, _, hfc, htt, _, hlog, hcap, hact⟩ :=
    run_backtest_ok_elim steps init n c m r hok
  refine ⟨?_, ?_, ?_, ?_, ?_⟩
  · rw [htt, hlog]
  · rw [hpv]
    have h := runSteps_portfolio_len n c m steps (initialState init) 0 st hrs
    simpa [initialState] using h
  · have h := runSteps_inv n c m (capitalInvariant init) steps (initialState init) 0 st
      (fun stp _ s u s2 hbs hPs => step_capital n c m s u stp s2 init hbs hPs) hrs
      (by simp [capitalInvariant, initialState])
    unfold capitalInvariant at h
    rw [hcap, hact, hlog]
    exact h
  · intro stpL hgl
    rw [hpv, hcap, hact]
    exact runSteps_last_portfolio n c m steps (initialState init) 0 st stpL hrs hgl
  · rw [hfc, hpv, hcap]

def exRes10 : BacktestResult :=
  ⟨[500], 1000, 500, 0, 0, [], 500, [⟨0, 100, 50, 500, 1⟩]⟩

/-- Witness for C10_open_trades_at_end: a one-step run whose trade is still
open at the end. -/
theorem C10_open_trades_at_end_witness :
    exRes10.total_trades = exRes10.trade_log.length ∧
    exRes10.portfolio_values.length = [exStp1].length ∧
    exRes10.capital + (exRes10.active_trades.map fun tr => tr.entry_net).sum =
      1000 + (exRes10.trade_log.map fun tr => tr.profit).sum ∧
    (∀ stpL, [exStp1].getLast? = some stpL →
      exRes10.portfolio_values.getLast? = some (exRes10.capital +
        (exRes10.active_trades.map (pnl 10 stpL.depPrice stpL.indPrice)).sum)) ∧
    exRes10.final_capital = (exRes10.portfolio_values.getLast?).getD exRes10.capital := by
  exact C10_open_trades_at_end [exStp1] 1000 10 0 0 exRes10
    (by norm_num [run_backtest, runSteps, backtestStep, entryPhase, exitPhase, markPhase,
      entryVarsAfter, initialState, entryNet, pnl, exStp1, exRes10])

/-- Well-formedness of the trade records accumulated by the loop: every
stored `entry_net` of every open trade is the entry formula evaluated at its own
locked entry prices, and every logged trade additionally has
`profit = exit_net - entry_net` with the exit formula evaluated at its own
recorded exit prices; quantities on both legs are the constant `n_shares`
(the engine takes no hedge ratio, so the independent-leg multiplier is 1). -/
def tradesWF (n c : ℚ) (st : BState) : Prop :=
  (∀ tr ∈ st.active_trades,
    tr.entry_net = entryNet tr.direction tr.dep_entry tr.ind_entry n c ∧
    (tr.direction = 1 ∨ tr.direction = -1)) ∧
  (∀ tr ∈ st.trade_log,
    tr.entry_net = entryNet tr.direction tr.dep_entry tr.ind_entry n c ∧
    tr.profit = exitNet tr.direction tr.dep_exit tr.ind_exit n c - tr.entry_net ∧
    (tr.direction = 1 ∨ tr.direction = -1))

theorem step_tradesWF (n c m : ℚ) (st : BState) (t : ℕ) (stp : Step) (st2 : BState)
    (hsig : (stp.sig).getD 0 = 1 ∨ (stp.sig).getD 0 = -1 ∨ (stp.sig).getD 0 = 0)
    (hok : backtestStep n c m st t stp = Except.ok st2)
    (hWF : tradesWF n c st) : tradesWF n c st2 := by
  obtain ⟨st3, hep, rfl⟩ := backtestStep_ok_elim n c m st t stp st2 hok
  obtain ⟨hlog, _, _, hcase⟩ := entryPhase_spec _ _ _ _ _ _ _ _ _ hep
  obtain ⟨hWFa, hWFl⟩ := hWF
  unfold tradesWF
  simp only [markPhase]
  rcases exitPhase_cases n c t stp.depPrice stp.indPrice ((stp.sig).getD 0) st with
      hex | ⟨_, hcur, _, hex⟩
  · rw [hex] at hlog hcase
    rcases hcase with ⟨ha, _⟩ | ⟨e, d, hcur0, _, ha, _, _, _, himp1, himp2⟩
    · rw [hlog, ha]
      exact ⟨hWFa, hWFl⟩
    · rw [hlog, ha]
      refine ⟨?_, hWFl⟩
      intro tr htr
      rcases List.mem_append.mp htr with hmem | hmem
      · exact hWFa tr hmem
      · have heq : tr = ⟨t, stp.depPrice, stp.indPrice, e, d⟩ := by
          simpa using hmem
        subst heq
        rcases hsig with hs | hs | hs
        · obtain ⟨he, hd⟩ := himp1 hs
          simp [he, hd]
        · obtain ⟨he, hd⟩ := himp2 hs
          simp [he, hd]
        · exact absurd hs hcur0
  · rw [hex] at hlog hcase
    rcases hcase with ⟨ha, _⟩ | ⟨e, d, hcur2, _, _⟩
    · rw [hlog, ha]
      simp only
      constructor
      · intro tr htr
        simp at htr
      · intro tr htr
        have htr2 : tr ∈ st.trade_log ∨
            ∃ a ∈ st.active_trades, closeTrade n c t stp.depPrice stp.indPrice a = tr := by
          simpa using htr
        rcases htr2 with hmem | ⟨tr0, htr0, rfl⟩
        · exact hWFl tr hmem
        · obtain ⟨hwf0, hdir0⟩ := hWFa tr0 htr0
          refine ⟨?_, ?_, ?_⟩
          · simpa [closeTrade] using hwf0
          · simp [closeTrade]
          · simpa [closeTrade] using hdir0
    · exact absurd hcur hcur2

/-! ### Claim C3 -/

/-- C3 (confirmed): `run_backtest` takes no hedge-ratio input, so
`hedge_ratio_at_entry` is the default 1 and both leg quantities equal
`n_shares` for every trade. The quantities, entry prices and direction a
trade carries are locked at entry: the `entry_net` of every logged trade is the
entry formula at its own locked entry prices and its profit is the exit
formula at its own recorded exit prices minus that locked `entry_net` —
nothing is re-scaled at exit. Stated for runs whose signals stay in
{-1,0,1} (outside that set the engine can reuse stale entry variables,
see C9). -/
theorem C3_quantity_lock (steps : List Step) (init n c m : ℚ) (r : BacktestResult)
    (hsig : ∀ stp ∈ steps,
      (stp.sig).getD 0 = 1 ∨ (stp.sig).getD 0 = -1 ∨ (stp.sig).getD 0 = 0)
    (hok : run_backtest steps init n c m = Except.ok r) :
    (∀ tr ∈ r.active_trades,
      tr.entry_net = entryNet tr.direction tr.dep_entry tr.ind_entry n c ∧
      (tr.direction = 1 ∨ tr.direction = -1)) ∧
    (∀ tr ∈ r.trade_log,
      tr.entry_net = entryNet tr.direction tr.dep_entry tr.ind_entry n c ∧
      tr.profit = exitNet tr.direction tr.dep_exit tr.ind_exit n c - tr.entry_net ∧
      (tr.direction = 1 ∨ tr.direction = -1)) := by
  obtain ⟨st, hrs, _, _, _, _, _, hlog, _, hact⟩ := run_backtest_ok_elim steps init n c m r hok
  have h := runSteps_inv n c m (tradesWF n c) steps (initialState init) 0 st
    (fun stp hstp s u s2 hbs hPs => step_tradesWF n c m s u stp s2 (hsig stp hstp) hbs hPs)
    hrs (by simp [tradesWF, initialState])
  rw [hact, hlog]
  exact h

def exRes3 : BacktestResult :=
  ⟨[300000, 299460, 299500, 299930], 300000, 299930, 1, 0,
    [⟨1, 3, 105, 95, 51, 48, 540, 1, -70⟩], 299930, []⟩

/-- Witness for C3_quantity_lock: the concrete scenario of the spec, both
hypotheses discharged by evaluation. -/
theorem C3_quantity_lock_witness :
    (∀ tr ∈ exRes3.active_trades,
      tr.entry_net = entryNet tr.direction tr.dep_entry tr.ind_entry 10 0 ∧
      (tr.direction = 1 ∨ tr.direction = -1)) ∧
    (∀ tr ∈ exRes3.trade_log,
      tr.entry_net = entryNet tr.direction tr.dep_entry tr.ind_entry 10 0 ∧
      tr.profit = exitNet tr.direction tr.dep_exit tr.ind_exit 10 0 - tr.entry_net ∧
      (tr.direction = 1 ∨ tr.direction = -1)) := by
  exact C3_quantity_lock scenarioSteps 300000 10 0 250000 exRes3
    (by decide)
    (by norm_num [run_backtest, runSteps, backtestStep, entryPhase, exitPhase, markPhase,
      entryVarsAfter, initialState, entryNet, exitNet, closeTrade, pnl, scenarioSteps, exRes3])

/-! ### Claim C5 -/

/-- C5 (corrected): for every successful run, `win_rate` lies in [0, 100],
`trade_count` is the length of the trade log, `win_rate = 0` when
`trade_count = 0`, and for `trade_count > 0` it equals
`100 * (#logged trades with profit > 0) / trade_count`. The original
clause "equals 0 exactly when trade_count = 0" of the original claim fails: a run whose only
trades all lose also has `win_rate = 0` (see the counterexample). -/
theorem C5_win_rate (steps : List Step) (init n c m : ℚ) (r : BacktestResult)
    (hok : run_backtest steps init n c m = Except.ok r) :
    0 ≤ r.win_rate ∧ r.win_rate ≤ 100 ∧
    r.total_trades = r.trade_log.length ∧
    (r.total_trades = 0 → r.win_rate = 0) ∧
    (0 < r.total_trades →
      r.win_rate = ((r.trade_log.filter fun tr => 0 < tr.profit).length : ℚ) /
        (r.total_trades : ℚ) * 100) := by
  obtain ⟨st, _, _, _, _, htt, hwr, hlog, _, _⟩ := run_backtest_ok_elim steps init n c m r hok
  rw [htt, hwr, hlog]
  by_cases h : 0 < st.trade_log.length
  · rw [if_pos h]
    have hle : (st.trade_log.filter fun tr => 0 < tr.profit).length ≤ st.trade_log.length :=
      List.length_filter_le _ _
    have h0 : (0 : ℚ) < (st.trade_log.length : ℚ) := by exact_mod_cast h
    have hleQ : ((st.trade_log.filter fun tr => 0 < tr.profit).length : ℚ) ≤
        (st.trade_log.length : ℚ) := by exact_mod_cast hle
    refine ⟨by positivity, ?_, rfl, ?_, fun _ => rfl⟩
    · have hdiv : ((st.trade_log.filter fun tr => 0 < tr.profit).length : ℚ) /
          (st.trade_log.length : ℚ) ≤ 1 := by
        rw [div_le_one h0]
        exact hleQ
      nlinarith [hdiv]
    · intro h0'
      omega
  · rw [if_neg h]
    exact ⟨le_refl 0, by norm_num, rfl, fun _ => rfl, fun hpos => absurd hpos h⟩

def exRes5 : BacktestResult := ⟨[], 1000, 1000, 0, 0, [], 1000, []⟩

/-- Witness for C5_win_rate: the empty run, hypothesis discharged by
evaluation. -/
theorem C5_win_rate_witness :
    0 ≤ exRes5.win_rate ∧ exRes5.win_rate ≤ 100 ∧
    exRes5.total_trades = exRes5.trade_log.length ∧
    (exRes5.total_trades = 0 → exRes5.win_rate = 0) ∧
    (0 < exRes5.total_trades →
      exRes5.win_rate = ((exRes5.trade_log.filter fun tr => 0 < tr.profit).length : ℚ) /
        (exRes5.total_trades : ℚ) * 100) := by
  exact C5_win_rate [] 1000 10 0 250000 exRes5 (by norm_num [run_backtest, runSteps,
    initialState, exRes5])

/-- C5 counterexample: the scenario from the spec produces exactly one trade,
which loses 70, so `trade_count = 1` yet `win_rate = 0` — refuting
"win_rate equals 0 exactly when trade_count equals 0". -/
theorem C5_counterexample :
    run_backtest scenarioSteps 300000 10 0 250000 = Except.ok
      { portfolio_values := [300000, 299460, 299500, 299930], initial_capital := 300000,
        final_capital := 299930, total_trades := 1, win_rate := 0,
        trade_log := [⟨1, 3, 105, 95, 51, 48, 540, 1, -70⟩],
        capital := 299930, active_trades := [] } ∧
    (1 : ℕ) ≠ 0 := by
  refine ⟨?_, by norm_num⟩
  norm_num [run_backtest, runSteps, backtestStep, entryPhase, exitPhase, markPhase,
    entryVarsAfter, initialState, entryNet, exitNet, closeTrade, pnl, scenarioSteps]

/-! ### Claim C9 -/

/-- C9 (corrected): under the precondition that every resolved signal lies
in {-1, 0, +1}, `run_backtest` never errors; and a signal outside that set
hit at a step with previous signal 0 raises the unbound-variable error
*only if* `entry_net`/`direction` were never assigned before — in
particular it does so on the very first such step of a run (second
conjunct). The original claim, "for any input containing such a value the
function raises" is false: if an earlier step already assigned the locals,
their stale values are silently reused (see the counterexample). -/
theorem C9_entry_locals (steps : List Step) (init n c m : ℚ) :
    ((∀ stp ∈ steps,
        (stp.sig).getD 0 = 1 ∨ (stp.sig).getD 0 = -1 ∨ (stp.sig).getD 0 = 0) →
      exOk (run_backtest steps init n c m) = true) ∧
    (∀ d : Int, ∀ p q2 cap : ℚ, d ≠ 1 → d ≠ -1 → d ≠ 0 →
      run_backtest [⟨some d, p, q2⟩] cap n c m = Except.error unboundMsg) := by
  constructor
  · intro hsig
    obtain ⟨st, h⟩ := runSteps_isOk n c m steps (initialState init) 0 hsig
    simp only [run_backtest]
    rw [h]
    rfl
  · intro d p q2 cap hd1 hdm1 hd0
    have hEv : entryVarsAfter n c p q2 d (initialState cap).entry_vars = none := by
      unfold entryVarsAfter
      rw [if_neg hd1, if_neg hdm1]
      rfl
    have hentry : entryPhase n c m 0 p q2 d (initialState cap) = Except.error unboundMsg := by
      unfold entryPhase
      rw [if_pos (⟨rfl, hd0⟩ : (initialState cap).prev_signal = 0 ∧ d ≠ 0), hEv]
    have hexit : exitPhase n c 0 p q2 d (initialState cap) = initialState cap :=
      exitPhase_neg n c 0 p q2 d (initialState cap) (by simp [initialState])
    have hbs : backtestStep n c m (initialState cap) 0 ⟨some d, p, q2⟩ =
        Except.error unboundMsg := by
      simp only [backtestStep, Option.getD_some]
      rw [hexit, hentry]
    simp only [run_backtest, runSteps]
    rw [hbs]

/-- Witness for C9_entry_locals: both conjuncts applied at concrete
inputs. -/
theorem C9_entry_locals_witness :
    exOk (run_backtest [⟨some 1, 10, 5⟩] 100 1 0 0) = true ∧
    run_backtest [⟨some 7, 10, 5⟩] 100 1 0 0 = Except.error unboundMsg := by
  constructor
  · exact (C9_entry_locals [⟨some 1, 10, 5⟩] 100 1 0 0).1 (by decide)
  · exact (C9_entry_locals [⟨some 7, 10, 5⟩] 100 1 0 0).2 7 10 5 100 (by decide) (by decide)
      (by decide)

/-- C9 counterexample: the input contains signal 2 at a step whose
previous signal is 0, yet the run does not raise: the locals assigned at
step 0 (entry_net 500, direction 1) are silently reused at step 2, opening
a trade whose stored cost 500 differs from the fresh entry cost 700 at the
step-2 prices. -/
theorem C9_counterexample :
    run_backtest [⟨some 1, 100, 50⟩, ⟨some 0, 110, 50⟩, ⟨some 2, 120, 50⟩] 10000 10 0 0 =
      Except.ok
        { portfolio_values := [9500, 10100, 9600], initial_capital := 10000,
          final_capital := 9600, total_trades := 1, win_rate := 100,
          trade_log := [⟨0, 1, 100, 110, 50, 50, 500, 1, 100⟩],
          capital := 9600, active_trades := [⟨2, 120, 50, 500, 1⟩] } ∧
    entryNet 1 120 50 10 0 = 700 ∧ ((500 : ℚ) ≠ 700) := by
  refine ⟨?_, by norm_num [entryNet], by norm_num⟩
  norm_num [run_backtest, runSteps, backtestStep, entryPhase, exitPhase, markPhase,
    entryVarsAfter, initialState, entryNet, exitNet, closeTrade, pnl]

/-! ### Claim C4 -/

theorem runAux_len (pairs : List (ℚ × ℚ)) :
    ∀ s sf hrs preds, KalmanFilterReg.runAux s pairs = Except.ok (sf, hrs, preds) →
      hrs.length = pairs.length ∧ preds.length = pairs.length := by
  induction pairs with
  | nil =>
    intro s sf hrs preds h
    simp only [KalmanFilterReg.runAux, Except.ok.injEq, Prod.mk.injEq] at h
    obtain ⟨-, h1, h2⟩ := h
    simp [← h1, ← h2]
  | cons p rest ih =>
    intro s sf hrs preds h
    obtain ⟨x, y⟩ := p
    simp only [KalmanFilterReg.runAux] at h
    cases hu : KalmanFilterReg.update (KalmanFilterReg.predict s) x y with
    | error e =>
      rw [hu] at h
      cases h
    | ok s2 =>
      rw [hu] at h
      dsimp only at h
      cases hr : KalmanFilterReg.runAux s2 rest with
      | error e =>
        rw [hr] at h
        cases h
      | ok trip =>
        obtain ⟨sf2, hrs2, preds2⟩ := trip
        rw [hr] at h
        dsimp only at h
        simp only [Except.ok.injEq, Prod.mk.injEq] at h
        obtain ⟨-, h1, h2⟩ := h
        obtain ⟨ih1, ih2⟩ := ih s2 sf2 hrs2 preds2 hr
        simp [← h1, ← h2, ih1, ih2]

theorem run_kalman_filter_len (s : KalmanFilterReg) (x_series y_series hrs preds : List ℚ)
    (h : s.run_kalman_filter x_series y_series = Except.ok (hrs, preds)) :
    hrs.length = min x_series.length y_series.length ∧
    preds.length = min x_series.length y_series.length := by
  simp only [KalmanFilterReg.run_kalman_filter] at h
  cases ha : KalmanFilterReg.runAux s (x_series.zip y_series) with
  | error e =>
    rw [ha] at h
    cases h
  | ok trip =>
    obtain ⟨sf, hrs2, preds2⟩ := trip
    rw [ha] at h
    dsimp only at h
    simp only [Except.ok.injEq, Prod.mk.injEq] at h
    obtain ⟨h1, h2⟩ := h
    have hlen := runAux_len (x_series.zip y_series) s sf hrs2 preds2 ha
    rw [← h1, ← h2]
    simpa [List.length_zip] using hlen

/-- C4 (corrected): neither function validates its inputs or fails fast.
`run_backtest` accepts any commission (also outside [0,1)) and any
n_shares (also ≤ 0) and simulates every step, returning a portfolio series
of full length, for every configuration; `run_kalman_filter` accepts
mismatched series lengths and silently truncates to the shorter series
instead of erroring. The claimed up-front validation does not exist. -/
theorem C4_no_validation (steps : List Step) (init n c m : ℚ)
    (hsig : ∀ stp ∈ steps,
      (stp.sig).getD 0 = 1 ∨ (stp.sig).getD 0 = -1 ∨ (stp.sig).getD 0 = 0) :
    (∃ r, run_backtest steps init n c m = Except.ok r ∧
      r.portfolio_values.length = steps.length) ∧
    (∀ (s : KalmanFilterReg) (x_series y_series hrs preds : List ℚ),
      s.run_kalman_filter x_series y_series = Except.ok (hrs, preds) →
      hrs.length = min x_series.length y_series.length ∧
      preds.length = min x_series.length y_series.length) := by
  constructor
  · obtain ⟨st, h⟩ := runSteps_isOk n c m steps (initialState init) 0 hsig
    have hlen := runSteps_portfolio_len n c m steps (initialState init) 0 st h
    have hrb : run_backtest steps init n c m = Except.ok
        { portfolio_values := st.portfolio_values
          initial_capital := init
          final_capital := (st.portfolio_values.getLast?).getD st.capital
          total_trades := st.trade_log.length
          win_rate := if 0 < st.trade_log.length then
            ((st.trade_log.filter fun tr => 0 < tr.profit).length : ℚ) /
              (st.trade_log.length : ℚ) * 100 else 0
          trade_log := st.trade_log
          capital := st.capital
          active_trades := st.active_trades } := by
      simp only [run_backtest]
      rw [h]
    exact ⟨_, hrb, by simpa [initialState] using hlen⟩
  · exact fun s xs ys hrs preds h => run_kalman_filter_len s xs ys hrs preds h

/-- Witness for C4_no_validation: an invalid configuration (commission 2,
n_shares -5) with a valid signal stream; the hypothesis is discharged by
evaluation. -/
theorem C4_no_validation_witness :
    (∃ r, run_backtest [⟨some 1, 100, 50⟩, ⟨some 0, 110, 55⟩] 1000000 (-5) 2 250000 =
        Except.ok r ∧
      r.portfolio_values.length = [(⟨some 1, 100, 50⟩ : Step), ⟨some 0, 110, 55⟩].length) ∧
    (∀ (s : KalmanFilterReg) (x_series y_series hrs preds : List ℚ),
      s.run_kalman_filter x_series y_series = Except.ok (hrs, preds) →
      hrs.length = min x_series.length y_series.length ∧
      preds.length = min x_series.length y_series.length) := by
  exact C4_no_validation [⟨some 1, 100, 50⟩, ⟨some 0, 110, 55⟩] 1000000 (-5) 2 250000
    (by decide)

/-- C4 counterexample: the run with commission 2 ∉ [0,1) and n_shares
-5 ≤ 0 completes without any error (silently producing a "profit" from the
nonsensical configuration), and the estimator run on series of lengths 2
and 3 silently returns truncated outputs of length 2 instead of failing —
refuting "fails fast before any step is simulated". -/
theorem C4_counterexample :
    run_backtest [⟨some 1, 100, 50⟩, ⟨some 0, 110, 55⟩] 1000000 (-5) 2 250000 = Except.ok
      { portfolio_values := [1001750, 1003125], initial_capital := 1000000,
        final_capital := 1003125, total_trades := 1, win_rate := 100,
        trade_log := [⟨0, 1, 100, 110, 50, 55, -1750, 1, 3125⟩],
        capital := 1003125, active_trades := [] } ∧
    (KalmanFilterReg.initial.run_kalman_filter [1, 2] [1, 2, 3]).toOption.map
        (fun pr => (pr.1.length, pr.2.length)) = some (2, 2) := by
  constructor
  · norm_num [run_backtest, runSteps, backtestStep, entryPhase, exitPhase, markPhase,
      entryVarsAfter, initialState, entryNet, exitNet, closeTrade, pnl]
  · norm_num [KalmanFilterReg.run_kalman_filter, KalmanFilterReg.runAux,
      KalmanFilterReg.update, KalmanFilterReg.predict, KalmanFilterReg.innovationCov,
      KalmanFilterReg.initial, Except.toOption]

/-! ### Claim C6 -/

/-- C6 (confirmed): on price_dep=[100,105,110,95], price_ind=[50,51,52,48],
signal=[0,1,1,0], n_shares=10, commission=0, for every initial capital
passing the entry-cost check (capital ≥ 540) and the margin check
(capital > 250000), the run opens exactly one trade at index 1 with entry
prices (105, 51) and cost 540, closes it at index 3 with exit prices
(95, 48), and logs profit (95-105)·10 + (51-48)·10 = -70, with
trade_count = 1. -/
theorem C6_scenario (capital : ℚ) (h1 : 540 ≤ capital) (h2 : 250000 < capital) :
    run_backtest scenarioSteps capital 10 0 250000 = Except.ok
      { portfolio_values := [capital, capital - 540, capital - 500, capital - 70],
        initial_capital := capital, final_capital := capital - 70,
        total_trades := 1, win_rate := 0,
        trade_log := [⟨1, 3, 105, 95, 51, 48, 540, 1, -70⟩],
        capital := capital - 70, active_trades := [] } := by
  norm_num [run_backtest, runSteps, backtestStep, entryPhase, exitPhase, markPhase,
    entryVarsAfter, initialState, entryNet, exitNet, closeTrade, pnl, scenarioSteps,
    h1, h2]
  exact ⟨by ring, by ring⟩

/-- Witness for C6_scenario at capital 300000. -/
theorem C6_scenario_witness :
    run_backtest scenarioSteps 300000 10 0 250000 = Except.ok
      { portfolio_values := [300000, 300000 - 540, 300000 - 500, 300000 - 70],
        initial_capital := 300000, final_capital := 300000 - 70,
        total_trades := 1, win_rate := 0,
        trade_log := [⟨1, 3, 105, 95, 51, 48, 540, 1, -70⟩],
        capital := 300000 - 70, active_trades := [] } :=
  C6_scenario 300000 (by norm_num) (by norm_num)

/-! ### Claim C7 -/

theorem runAux_trace (pairs : List (ℚ × ℚ)) :
    ∀ s sf hrs preds, KalmanFilterReg.runAux s pairs = Except.ok (sf, hrs, preds) →
      KalmanTraceSpec s pairs sf hrs preds := by
  induction pairs with
  | nil =>
    intro s sf hrs preds h
    simp only [KalmanFilterReg.runAux, Except.ok.injEq, Prod.mk.injEq] at h
    obtain ⟨h0, h1, h2⟩ := h
    rw [← h0, ← h1, ← h2]
    exact KalmanTraceSpec.nil s
  | cons p rest ih =>
    intro s sf hrs preds h
    obtain ⟨x, y⟩ := p
    simp only [KalmanFilterReg.runAux] at h
    cases hu : KalmanFilterReg.update (KalmanFilterReg.predict s) x y with
    | error e =>
      rw [hu] at h
      cases h
    | ok s2 =>
      rw [hu] at h
      dsimp only at h
      cases hr : KalmanFilterReg.runAux s2 rest with
      | error e =>
        rw [hr] at h
        cases h
      | ok trip =>
        obtain ⟨sf2, hrs2, preds2⟩ := trip
        rw [hr] at h
        dsimp only at h
        simp only [Except.ok.injEq, Prod.mk.injEq] at h
        obtain ⟨h0, h1, h2⟩ := h
        rw [← h0, ← h1, ← h2]
        exact KalmanTraceSpec.cons s s2 sf2 x y rest hrs2 preds2 hu (ih s2 sf2 hrs2 preds2 hr)

/-- C7 (confirmed): for equal-length input series, a successful
`run_kalman_filter` returns output lists whose length equals the input
length, and the run is exactly one `predict` followed by one `update` per
paired observation, in that order, recording the post-update slope `x[1]`
as the hedge ratio and `x[0] + x[1]·x_obs` as the predicted spread — a
single forward pass with no smoothing. -/
theorem C7_run_structure (x_series y_series : List ℚ) (s0 : KalmanFilterReg)
    (hlen : x_series.length = y_series.length) (hrs preds : List ℚ)
    (hok : s0.run_kalman_filter x_series y_series = Except.ok (hrs, preds)) :
    hrs.length = x_series.length ∧ preds.length = x_series.length ∧
    ∃ sf, KalmanTraceSpec s0 (x_series.zip y_series) sf hrs preds := by
  obtain ⟨hl1, hl2⟩ := run_kalman_filter_len s0 x_series y_series hrs preds hok
  refine ⟨by rw [hl1, hlen, min_self], by rw [hl2, hlen, min_self], ?_⟩
  simp only [KalmanFilterReg.run_kalman_filter] at hok
  cases ha : KalmanFilterReg.runAux s0 (x_series.zip y_series) with
  | error e =>
    rw [ha] at hok
    cases hok
  | ok trip =>
    obtain ⟨sf, hrs2, preds2⟩ := trip
    rw [ha] at hok
    dsimp only at hok
    simp only [Except.ok.injEq, Prod.mk.injEq] at hok
    obtain ⟨h1, h2⟩ := hok
    rw [← h1, ← h2]
    exact ⟨sf, runAux_trace (x_series.zip y_series) s0 sf hrs2 preds2 ha⟩

def exKal7 : KalmanFilterReg := ⟨0, 0, 1, 0, 0, 1, 0, 1⟩

/-- Witness for C7_run_structure: a one-observation run from a concrete
filter state, hypotheses discharged by evaluation. -/
theorem C7_run_structure_witness :
    [(1 : ℚ)/3].length = [(1 : ℚ)].length ∧ [(2 : ℚ)/3].length = [(1 : ℚ)].length ∧
    ∃ sf, KalmanTraceSpec exKal7 ([(1 : ℚ)].zip [(1 : ℚ)]) sf [1/3] [2/3] :=
  C7_run_structure [1] [1] exKal7 rfl [1/3] [2/3]
    (by norm_num [KalmanFilterReg.run_kalman_filter, KalmanFilterReg.runAux,
      KalmanFilterReg.update, KalmanFilterReg.predict, KalmanFilterReg.innovationCov,
      exKal7])

/-! ### Claim C8 -/

/-- C8 (corrected): `update` fails (with the singular-matrix error) exactly
when the innovation covariance S = C·P·Cᵗ + R is zero. Whenever R > 0 and
P is positive semidefinite, S > 0 and `update` succeeds (second and first
conjuncts). But an observation noise R = 0 alone does *not* make `update`
fail fast: with the positive-definite covariance of the reference the update
silently proceeds (see the counterexample). -/
theorem C8_innovation (s : KalmanFilterReg) (x y : ℚ)
    (hpsd : ∀ a b : ℚ, 0 ≤ a * a * s.p00 + a * b * s.p01 + b * a * s.p10 + b * b * s.p11)
    (hr : 0 < s.r) :
    0 < s.innovationCov x ∧ (∃ s2, s.update x y = Except.ok s2) ∧
    (∀ s3 : KalmanFilterReg, ∀ x3 y3 : ℚ, s3.innovationCov x3 = 0 →
      s3.update x3 y3 = Except.error singularMsg) := by
  have hS : 0 < s.innovationCov x := by
    have h := hpsd 1 x
    unfold KalmanFilterReg.innovationCov
    nlinarith [h, hr]
  refine ⟨hS, ?_, ?_⟩
  · unfold KalmanFilterReg.update
    rw [if_neg (ne_of_gt hS)]
    exact ⟨_, rfl⟩
  · intro s3 x3 y3 h0
    unfold KalmanFilterReg.update
    rw [if_pos h0]

/-- Witness for C8_innovation at the reference initial state (R = 10,
P = 1000·I), hypotheses discharged by explicit terms. -/
theorem C8_innovation_witness :
    0 < KalmanFilterReg.initial.innovationCov 1 ∧
    (∃ s2, KalmanFilterReg.initial.update 1 1 = Except.ok s2) ∧
    (∀ s3 : KalmanFilterReg, ∀ x3 y3 : ℚ, s3.innovationCov x3 = 0 →
      s3.update x3 y3 = Except.error singularMsg) :=
  C8_innovation KalmanFilterReg.initial 1 1
    (fun a b => by
      norm_num [KalmanFilterReg.initial]
      nlinarith [sq_nonneg a, sq_nonneg b])
    (by norm_num [KalmanFilterReg.initial])

/-- C8 counterexample: set R = 0 on the reference state and run
`predict` then `update`: S = 2000.002 ≠ 0, so the update silently
succeeds — refuting "if R is 0 update fails fast with an error". -/
theorem C8_counterexample :
    exOk (KalmanFilterReg.update
      (KalmanFilterReg.predict { KalmanFilterReg.initial with r := 0 }) 1 1) = true ∧
    ({ KalmanFilterReg.initial with r := 0 } : KalmanFilterReg).r = 0 := by
  constructor
  · norm_num [KalmanFilterReg.update, KalmanFilterReg.predict,
      KalmanFilterReg.innovationCov, KalmanFilterReg.initial, exOk]
  · rfl

end Trading
